import Mathlib

/-
Shallow embedding of the AI Coffeehouse conversation core.

Embedded source:
- src/lib/conversationStateManager.ts : class ConversationStateManager
  (a JS Map from conversation mode to a message array, plus a current mode).
- src/components/ChatInterface.tsx (final variant): the turn orchestration
  (handleSendMessage group path, getAgentResponse, executeAutoTurn and the
  auto-chat loop with round limit and cancellation).

Modelling conventions:
- JS Map is an insertion-ordered association list with unique keys; Map.get,
  Map.set, Map.has are mapGet, mapSet, mapHas below. Map.set on an existing
  key overwrites in place, otherwise appends at the end, as in JS.
- Date.now() is an external clock oracle (a function from call index to Nat);
  successive calls of Date.now() are non-decreasing.
- Array.prototype.sort with comparator (a, b) => a.timestamp - b.timestamp is
  the stable sort by non-decreasing timestamp, i.e. List.mergeSort with the
  boolean order tsLE.
- the agent invocation boundary (callAgent) is an opaque function returning
  Except: Except.error models a thrown ApiError / failed fetch.
-/

structure Message where
  id : String
  sender : String
  recipient : String
  content : String
  timestamp : Nat
deriving Repr, DecidableEq

abbrev Bucket := List Message

/-- JS Map.has on an insertion-ordered association list. -/
def mapHas (m : List (String × Bucket)) (k : String) : Bool :=
  m.any (fun p => p.1 == k)

/-- JS Map.get on an insertion-ordered association list. -/
def mapGet (m : List (String × Bucket)) (k : String) : Option Bucket :=
  (m.find? (fun p => p.1 == k)).map Prod.snd

/-- JS Map.set: overwrite an existing key in place, otherwise append at the end. -/
def mapSet (m : List (String × Bucket)) (k : String) (v : Bucket) : List (String × Bucket) :=
  match m with
  | [] => [(k, v)]
  | (k', v') :: rest => if k' == k then (k, v) :: rest else (k', v') :: mapSet rest k v

/-- The state of class ConversationStateManager: the Map conversationStates
and the currentMode field. -/
structure ConversationStateManager where
  conversationStates : List (String × Bucket)
  currentMode : String
deriving Repr, DecidableEq

/-- The constructor: one empty bucket named group, current mode group. -/
def ConversationStateManager.init : ConversationStateManager :=
  ⟨[("group", [])], "group"⟩

/-- switchMode(mode): create an empty bucket for the mode if absent, then set
currentMode. -/
def ConversationStateManager.switchMode (s : ConversationStateManager)
    (mode : String) : ConversationStateManager :=
  let states :=
    if mapHas s.conversationStates mode then s.conversationStates
    else mapSet s.conversationStates mode []
  ⟨states, mode⟩

/-- getMessages(mode): the bucket for the mode, or empty for an unknown mode
(the JS code reads conversationStates.get(mode) || []). -/
def ConversationStateManager.getMessages (s : ConversationStateManager)
    (mode : String) : Bucket :=
  (mapGet s.conversationStates mode).getD []

/-- getCurrentMessages(): getMessages at the current mode. -/
def ConversationStateManager.getCurrentMessages (s : ConversationStateManager) : Bucket :=
  s.getMessages s.currentMode

/-- addMessage(message): push onto the current mode's bucket (created on
demand by the get-or-default followed by set). -/
def ConversationStateManager.addMessage (s : ConversationStateManager)
    (msg : Message) : ConversationStateManager :=
  ⟨mapSet s.conversationStates s.currentMode (s.getMessages s.currentMode ++ [msg]),
   s.currentMode⟩

/-- addMessageToMode(mode, message): push onto a specific bucket (created on
demand). -/
def ConversationStateManager.addMessageToMode (s : ConversationStateManager)
    (mode : String) (msg : Message) : ConversationStateManager :=
  ⟨mapSet s.conversationStates mode (s.getMessages mode ++ [msg]), s.currentMode⟩

/-- The boolean comparison underlying the JS comparator
(a, b) => a.timestamp - b.timestamp: a before b when a.timestamp <= b.timestamp. -/
def tsLE (a b : Message) : Bool :=
  a.timestamp ≤ b.timestamp

/-- getMessagesForAgent(agentId): concatenate the private bucket for the agent
with the group bucket and stable-sort by timestamp ascending. -/
def ConversationStateManager.getMessagesForAgent (s : ConversationStateManager)
    (agentId : String) : List Message :=
  (s.getMessages agentId ++ s.getMessages "group").mergeSort tsLE

/-- clearAll(): back to a single empty group bucket, mode group. -/
def ConversationStateManager.clearAll (_ : ConversationStateManager) :
    ConversationStateManager :=
  ⟨[("group", [])], "group"⟩

/-- clearConversation(mode): set the mode's bucket to the empty array. -/
def ConversationStateManager.clearConversation (s : ConversationStateManager)
    (mode : String) : ConversationStateManager :=
  ⟨mapSet s.conversationStates mode [], s.currentMode⟩

/-- exportStates(): the bucket map as a plain object, keys in Map insertion
order (Object.entries preserves that order). -/
def ConversationStateManager.exportStates (s : ConversationStateManager) :
    List (String × Bucket) :=
  s.conversationStates

/-- importStates(states, currentMode): clear the map, re-insert every entry of
the blob in order, then take the requested mode if it is truthy (a non-empty
string) and has a bucket, else fall back to group. -/
def ConversationStateManager.importStates (_ : ConversationStateManager)
    (states : List (String × Bucket)) (currentMode : Option String) :
    ConversationStateManager :=
  let m := states.foldl (fun acc p => mapSet acc p.1 p.2) []
  let mode :=
    match currentMode with
    | some cm => if cm != "" && mapHas m cm then cm else "group"
    | none => "group"
  ⟨m, mode⟩

/-- getAvailableModes(): the keys of the map in insertion order. -/
def ConversationStateManager.getAvailableModes (s : ConversationStateManager) :
    List String :=
  s.conversationStates.map Prod.fst

/-- Every message held in any bucket of the store. -/
def ConversationStateManager.storeMessages (s : ConversationStateManager) :
    List Message :=
  (s.conversationStates.map Prod.snd).flatten

/- Basic lemmas about the Map model. -/

theorem mapGet_mapSet_self (m : List (String × Bucket)) (k : String) (v : Bucket) :
    mapGet (mapSet m k v) k = some v := by
  induction m with
  | nil => simp [mapSet, mapGet]
  | cons p rest ih =>
    obtain ⟨k', v'⟩ := p
    by_cases h : k' = k
    · simp [mapSet, mapGet, h]
    · have hb : (k' == k) = false := beq_eq_false_iff_ne.mpr h
      simp [mapSet, mapGet, hb, List.find?] at ih ⊢
      simpa [mapGet] using ih

theorem mapHas_mapSet (m : List (String × Bucket)) (k k' : String) (v : Bucket) :
    mapHas (mapSet m k v) k' = ((k == k') || mapHas m k') := by
  induction m with
  | nil => simp [mapSet, mapHas]
  | cons p rest ih =>
    obtain ⟨k₀, v₀⟩ := p
    by_cases h : k₀ = k
    · subst h
      by_cases h' : k₀ = k'
      · simp [mapSet, mapHas, h']
      · have hb : (k₀ == k') = false := beq_eq_false_iff_ne.mpr h'
        simp [mapSet, mapHas, hb]
    · have hb : (k₀ == k) = false := beq_eq_false_iff_ne.mpr h
      simp [mapSet, mapHas, hb] at ih ⊢
      by_cases h' : k₀ = k'
      · simp [h']
      · have hb' : (k₀ == k') = false := beq_eq_false_iff_ne.mpr h'
        simp [hb', ih]

theorem getMessages_addMessageToMode (s : ConversationStateManager)
    (mode : String) (msg : Message) :
    (s.addMessageToMode mode msg).getMessages mode = s.getMessages mode ++ [msg] := by
  simp [ConversationStateManager.addMessageToMode, ConversationStateManager.getMessages,
    mapGet_mapSet_self]

theorem getMessages_addMessage (s : ConversationStateManager) (msg : Message) :
    (s.addMessage msg).getMessages s.currentMode = s.getMessages s.currentMode ++ [msg] := by
  simp [ConversationStateManager.addMessage, ConversationStateManager.getMessages,
    mapGet_mapSet_self]

theorem mem_storeMessages_of_mem_getMessages (s : ConversationStateManager)
    (mode : String) (m : Message) (hm : m ∈ s.getMessages mode) :
    m ∈ s.storeMessages := by
  unfold ConversationStateManager.getMessages at hm
  unfold ConversationStateManager.storeMessages
  cases hfind : mapGet s.conversationStates mode with
  | none => simp [hfind] at hm
  | some b =>
    simp [hfind] at hm
    unfold mapGet at hfind
    cases hf : s.conversationStates.find? (fun p => p.1 == mode) with
    | none => simp [hf] at hfind
    | some pb =>
      simp [hf] at hfind
      have hmem := List.mem_of_find?_eq_some hf
      subst hfind
      rw [List.mem_flatten]
      exact ⟨pb.2, List.mem_map_of_mem Prod.snd hmem, hm⟩

/- The order tsLE is transitive and total, as needed by the mergeSort lemmas. -/

theorem tsLE_trans : ∀ a b c : Message, tsLE a b → tsLE b c → tsLE a c := by
  intro a b c hab hbc
  simp [tsLE] at hab hbc ⊢
  omega

theorem tsLE_total : ∀ a b : Message, tsLE a b || tsLE b a := by
  intro a b
  simp [tsLE]
  omega

theorem mem_getMessagesForAgent (s : ConversationStateManager) (agentId : String)
    (m : Message) :
    m ∈ s.getMessagesForAgent agentId ↔
      m ∈ s.getMessages agentId ++ s.getMessages "group" := by
  unfold ConversationStateManager.getMessagesForAgent
  exact List.mem_mergeSort

theorem mem_storeMessages_of_mem_getMessagesForAgent (s : ConversationStateManager)
    (agentId : String) (m : Message) (hm : m ∈ s.getMessagesForAgent agentId) :
    m ∈ s.storeMessages := by
  rcases List.mem_append.mp ((mem_getMessagesForAgent s agentId m).mp hm) with h | h
  · exact mem_storeMessages_of_mem_getMessages s agentId m h
  · exact mem_storeMessages_of_mem_getMessages s "group" m h

/- Claim C1: the per-agent visibility rule of the Conversation Store. -/

/-- C1: for every agent id, getMessagesForAgent returns exactly the union of
the private bucket and the group bucket (a permutation of their
concatenation), sorted by timestamp ascending with ties broken by the order
of the pre-sort concatenation (which preserves each bucket's insertion
order), and the result is a superset of either bucket alone. -/
theorem getMessagesForAgent_sorted_union (s : ConversationStateManager)
    (agentId : String) :
    (s.getMessagesForAgent agentId).Perm
      (s.getMessages agentId ++ s.getMessages "group")
    ∧ (s.getMessagesForAgent agentId).Pairwise
        (fun m1 m2 => m1.timestamp ≤ m2.timestamp)
    ∧ (∀ m ∈ s.getMessages agentId, m ∈ s.getMessagesForAgent agentId)
    ∧ (∀ m ∈ s.getMessages "group", m ∈ s.getMessagesForAgent agentId)
    ∧ (∀ m1 m2 : Message,
        [m1, m2].Sublist (s.getMessages agentId ++ s.getMessages "group") →
        m1.timestamp ≤ m2.timestamp →
        [m1, m2].Sublist (s.getMessagesForAgent agentId)) := by
  refine ⟨List.mergeSort_perm _ _, ?_, ?_, ?_, ?_⟩
  · have h := @List.sorted_mergeSort _ tsLE tsLE_trans tsLE_total
      (s.getMessages agentId ++ s.getMessages "group")
    exact h.imp (fun hab => by simpa [tsLE] using hab)
  · intro m hm
    exact (mem_getMessagesForAgent s agentId m).mpr (List.mem_append_left _ hm)
  · intro m hm
    exact (mem_getMessagesForAgent s agentId m).mpr (List.mem_append_right _ hm)
  · intro m1 m2 hsub hle
    exact List.pair_sublist_mergeSort tsLE_trans tsLE_total
      (by simpa [tsLE] using hle) hsub

/-- A tiny concrete store used by witnesses: one group message and one private
message for agent alice, with tying timestamps. -/
def mA : Message := ⟨"1", "user", "alice", "hi", 5⟩

def mG : Message := ⟨"2", "user", "everyone", "hello", 5⟩

def storeW : ConversationStateManager :=
  ⟨[("group", [mG]), ("alice", [mA])], "group"⟩

/-- Witness for C1 at a concrete store: both buckets are contained in the
merged view, and the tying pair keeps its pre-sort order. -/
theorem getMessagesForAgent_sorted_union_witness :
    mA ∈ storeW.getMessagesForAgent "alice"
    ∧ mG ∈ storeW.getMessagesForAgent "alice"
    ∧ [mA, mG].Sublist (storeW.getMessagesForAgent "alice") := by
  have h := getMessagesForAgent_sorted_union storeW "alice"
  exact ⟨h.2.2.1 mA (by decide), h.2.2.2.1 mG (by decide),
    h.2.2.2.2 mA mG (by decide) (by decide)⟩

/- Claim C10: the group sentinel passed as an agent id. -/

/-- C10: calling getMessagesForAgent with the sentinel group as the agent id
merges the group bucket with itself: the result is a permutation of the group
bucket concatenated with itself, so every message of the group bucket occurs
exactly twice as often as in the bucket (no deduplication, no rejection). -/
theorem getMessagesForAgent_group_doubled (s : ConversationStateManager) :
    (s.getMessagesForAgent "group").Perm
      (s.getMessages "group" ++ s.getMessages "group")
    ∧ ∀ m : Message, (s.getMessagesForAgent "group").count m
        = 2 * (s.getMessages "group").count m := by
  constructor
  · exact List.mergeSort_perm _ _
  · intro m
    have h := (List.mergeSort_perm
      (s.getMessages "group" ++ s.getMessages "group") tsLE).count_eq m
    unfold ConversationStateManager.getMessagesForAgent
    rw [h, List.count_append]
    omega

/- Claim C6: existence of the group bucket across operations. -/

/-- C6 counterexample: importStates applied to a blob whose key set does not
contain group leaves the store with no group bucket, refuting the claim that
every store operation preserves the group-bucket invariant. -/
theorem importStates_drops_group_counterexample :
    mapHas ((ConversationStateManager.init.importStates
      [("alice", [])] (some "group")).conversationStates) "group" = false := by
  decide

theorem mapHas_foldl_mapSet (blob : List (String × Bucket))
    (acc : List (String × Bucket)) (k : String) :
    mapHas (List.foldl (fun acc p => mapSet acc p.1 p.2) acc blob) k
      = (mapHas acc k || blob.any (fun p => p.1 == k)) := by
  induction blob generalizing acc with
  | nil => simp
  | cons p rest ih =>
    rw [List.foldl_cons, ih, mapHas_mapSet]
    simp [Bool.or_assoc, Bool.or_comm, Bool.or_left_comm, BEq.comm]

/-- C6 amended: the group bucket exists in the initial store and is preserved
by switchMode, addMessage, addMessageToMode, clearAll and clearConversation,
and by importStates whenever the imported blob itself contains a group key;
importStates on a blob without a group key does not preserve it (see the
counterexample). -/
theorem group_bucket_invariant :
    (mapHas ConversationStateManager.init.conversationStates "group" = true)
    ∧ (∀ (s : ConversationStateManager) (mode : String),
        mapHas s.conversationStates "group" = true →
        mapHas (s.switchMode mode).conversationStates "group" = true)
    ∧ (∀ (s : ConversationStateManager) (msg : Message),
        mapHas s.conversationStates "group" = true →
        mapHas (s.addMessage msg).conversationStates "group" = true)
    ∧ (∀ (s : ConversationStateManager) (mode : String) (msg : Message),
        mapHas s.conversationStates "group" = true →
        mapHas (s.addMessageToMode mode msg).conversationStates "group" = true)
    ∧ (∀ s : ConversationStateManager,
        mapHas s.clearAll.conversationStates "group" = true)
    ∧ (∀ (s : ConversationStateManager) (mode : String),
        mapHas s.conversationStates "group" = true →
        mapHas (s.clearConversation mode).conversationStates "group" = true)
    ∧ (∀ (s : ConversationStateManager) (blob : List (String × Bucket))
        (cm : Option String),
        "group" ∈ blob.map Prod.fst →
        mapHas (s.importStates blob cm).conversationStates "group" = true) := by
  refine ⟨rfl, ?_, ?_, ?_, ?_, ?_, ?_⟩
  · intro s mode h
    unfold ConversationStateManager.switchMode
    by_cases hc : mapHas s.conversationStates mode
    · simpa [hc] using h
    · simp only [hc, Bool.false_eq_true, if_false]
      rw [mapHas_mapSet]
      simp [h]
  · intro s msg h
    unfold ConversationStateManager.addMessage
    rw [mapHas_mapSet]
    simp [h]
  · intro s mode msg h
    unfold ConversationStateManager.addMessageToMode
    rw [mapHas_mapSet]
    simp [h]
  · intro s
    rfl
  · intro s mode h
    unfold ConversationStateManager.clearConversation
    rw [mapHas_mapSet]
    simp [h]
  · intro s blob cm hmem
    unfold ConversationStateManager.importStates
    rw [mapHas_foldl_mapSet]
    rcases List.mem_map.mp hmem with ⟨p, hp, hfst⟩
    have : blob.any (fun p => p.1 == "group") = true :=
      List.any_eq_true.mpr ⟨p, hp, by simp [hfst]⟩
    simp [this]

/-- Witness for C6 at concrete stores: the invariant holds initially, after a
mode switch, and after an import whose blob contains a group key. -/
theorem group_bucket_invariant_witness :
    mapHas ConversationStateManager.init.conversationStates "group" = true
    ∧ mapHas ((ConversationStateManager.init.switchMode "alice").conversationStates)
        "group" = true
    ∧ mapHas ((ConversationStateManager.init.importStates
        [("group", []), ("alice", [])] (some "alice")).conversationStates)
        "group" = true := by
  have h := group_bucket_invariant
  exact ⟨h.1, h.2.1 ConversationStateManager.init "alice" h.1,
    h.2.2.2.2.2.2 ConversationStateManager.init [("group", []), ("alice", [])]
      (some "alice") (by decide)⟩

/- The turn orchestrator of ChatInterface.tsx (final variant). -/

/-- Agent configuration: the orchestrator reads only the id (the name is used
for error toasts); all other fields are opaque to the core. -/
structure AgentConfig where
  id : String
  name : String
deriving Repr, DecidableEq

/-- Reply message id as built in the source: timestamp-agentId-index. -/
def replyId (ts : Nat) (agentId : String) (i : Nat) : String :=
  toString ts ++ "-" ++ agentId ++ "-" ++ toString i

/-- The reply Message committed for the i-th agent of a group round: sender is
the agent, recipient is everyone, timestamp is Date.now() plus the index (the
slight offset the source uses to keep ordering deterministic). -/
def mkReply (ts : Nat) (i : Nat) (agentId : String) (resp : String) : Message :=
  ⟨replyId ts agentId i, agentId, "everyone", resp, ts + i⟩

/-- getAgentResponse: read the agent's merged visibility view and call the
vendor boundary with it; a failure is re-thrown to the caller after the toast. -/
def getAgentResponse (call : AgentConfig → List Message → Except String String)
    (s : ConversationStateManager) (agent : AgentConfig) : Except String String :=
  call agent (s.getMessagesForAgent agent.id)

/-- Promise.all over the per-agent invocation results: all fulfilled values in
order, or a rejection as soon as any invocation failed. -/
def allOk : List (AgentConfig × Except String String) →
    Option (List (AgentConfig × String))
  | [] => some []
  | (a, Except.ok r) :: rest => (allOk rest).map (fun l => (a, r) :: l)
  | (_, Except.error _) :: _ => none

/-- An invocation boundary in which every call succeeds, producing the text
given by the oracle gen. -/
def okCall (gen : AgentConfig → List Message → String) :
    AgentConfig → List Message → Except String String :=
  fun a ms => Except.ok (gen a ms)

/-- The commit loop of the group send path: for each (agent, response) pair in
order, stamp Date.now() plus the index and append to the round's bucket.
Returns the final store and the list of committed reply messages in commit
order. -/
def commitReplies (mode : String) (clock : Nat → Nat) :
    Nat → List (AgentConfig × String) → ConversationStateManager →
    ConversationStateManager × List Message
  | _, [], s => (s, [])
  | i, (a, resp) :: rest, s =>
    let msg := mkReply (clock i) i a.id resp
    let r := commitReplies mode clock (i + 1) rest (s.addMessageToMode mode msg)
    (r.1, msg :: r.2)

/-- The observable outcome of one group-addressed send: the final store, the
visibility snapshot each agent's generation call received, and the committed
replies in commit order. -/
structure SendResult where
  store : ConversationStateManager
  inputs : List (String × List Message)
  committed : List Message
deriving Repr

/-- The group-addressed path of handleSendMessage (final variant): append the
user message to the conversation mode captured at send time, start every
agent's invocation on its getMessagesForAgent snapshot (all snapshots are
read synchronously before any reply exists, because each invocation begins
before Promise.all is awaited and commits happen only after it resolves),
and only when all invocations succeed commit the replies in agent order. -/
def handleSendGroup (call : AgentConfig → List Message → Except String String)
    (clock : Nat → Nat) (agents : List AgentConfig) (userMsg : Message)
    (s : ConversationStateManager) : SendResult :=
  let mode := s.currentMode
  let s1 := s.addMessage userMsg
  let inputs := agents.map (fun a => (a.id, s1.getMessagesForAgent a.id))
  match allOk (agents.map (fun a => (a, getAgentResponse call s1 a))) with
  | some pairs =>
    let r := commitReplies mode clock 0 pairs s1
    ⟨r.1, inputs, r.2⟩
  | none => ⟨s1, inputs, []⟩

/- Helper lemmas about allOk and commitReplies. -/

theorem allOk_eq_none (l : List (AgentConfig × Except String String))
    (a : AgentConfig) (e : String) (h : (a, Except.error e) ∈ l) :
    allOk l = none := by
  induction l with
  | nil => cases h
  | cons p rest ih =>
    obtain ⟨a', r'⟩ := p
    cases r' with
    | error e' => rfl
    | ok v =>
      rcases List.mem_cons.mp h with heq | hmem
      · cases heq
      · simp [allOk, ih hmem]

theorem allOk_map_ok (agents : List AgentConfig) (f : AgentConfig → String) :
    allOk (agents.map (fun a => (a, Except.ok (f a))))
      = some (agents.map (fun a => (a, f a))) := by
  induction agents with
  | nil => rfl
  | cons a rest ih => simp [allOk, ih]

theorem commitReplies_timestamp (mode : String) (clock : Nat → Nat) :
    ∀ (pairs : List (AgentConfig × String)) (i : Nat)
      (s : ConversationStateManager) (m : Message),
      m ∈ (commitReplies mode clock i pairs s).2 →
      ∃ j, i ≤ j ∧ m.timestamp = clock j + j := by
  intro pairs
  induction pairs with
  | nil => intro i s m hm; simp [commitReplies] at hm
  | cons p rest ih =>
    intro i s m hm
    obtain ⟨a, resp⟩ := p
    simp only [commitReplies, List.mem_cons] at hm
    rcases hm with heq | hmem
    · exact ⟨i, Nat.le_refl i, by simp [heq, mkReply]⟩
    · rcases ih (i + 1) _ m hmem with ⟨j, hij, hts⟩
      exact ⟨j, Nat.le_of_succ_le hij, hts⟩

theorem commitReplies_senders (mode : String) (clock : Nat → Nat) :
    ∀ (pairs : List (AgentConfig × String)) (i : Nat)
      (s : ConversationStateManager),
      (commitReplies mode clock i pairs s).2.map Message.sender
        = pairs.map (fun p => p.1.id) := by
  intro pairs
  induction pairs with
  | nil => intro i s; rfl
  | cons p rest ih =>
    intro i s
    obtain ⟨a, resp⟩ := p
    simp [commitReplies, mkReply, ih (i + 1)]

theorem commitReplies_bucket (mode : String) (clock : Nat → Nat) :
    ∀ (pairs : List (AgentConfig × String)) (i : Nat)
      (s : ConversationStateManager),
      (commitReplies mode clock i pairs s).1.getMessages mode
        = s.getMessages mode ++ (commitReplies mode clock i pairs s).2 := by
  intro pairs
  induction pairs with
  | nil => intro i s; simp [commitReplies]
  | cons p rest ih =>
    intro i s
    obtain ⟨a, resp⟩ := p
    simp only [commitReplies]
    rw [ih (i + 1), getMessages_addMessageToMode]
    simp

theorem commitReplies_pairwise (mode : String) (clock : Nat → Nat)
    (hMono : ∀ i j : Nat, i ≤ j → clock i ≤ clock j) :
    ∀ (pairs : List (AgentConfig × String)) (i : Nat)
      (s : ConversationStateManager),
      (commitReplies mode clock i pairs s).2.Pairwise
        (fun m1 m2 => m1.timestamp < m2.timestamp) := by
  intro pairs
  induction pairs with
  | nil => intro i s; simp [commitReplies]
  | cons p rest ih =>
    intro i s
    obtain ⟨a, resp⟩ := p
    simp only [commitReplies]
    refine List.Pairwise.cons ?_ (ih (i + 1) _)
    intro m hm
    rcases commitReplies_timestamp mode clock rest (i + 1) _ m hm with ⟨j, hij, hts⟩
    have hcl : clock i ≤ clock j := hMono i j (Nat.le_of_succ_le hij)
    simp only [mkReply, hts]
    omega

/- Claim C2: failure isolation in a manual group round. -/

/-- Agents and inputs used by concrete witnesses and counterexamples. -/
def agA : AgentConfig := ⟨"a1", "Barista"⟩

def agB : AgentConfig := ⟨"a2", "Philosopher"⟩

def uW : Message := ⟨"5", "user", "everyone", "hello", 5⟩

def clockW : Nat → Nat := fun i => 10 + i

def callBFails : AgentConfig → List Message → Except String String :=
  fun a _ => if a.id == "a2" then Except.error "boom" else Except.ok "hi there"

def genW : AgentConfig → List Message → String :=
  fun a _ => "reply-" ++ a.id

/-- C2 counterexample: with agents A and B configured, A's invocation
succeeding and B's failing, Promise.all rejects and the commit phase never
runs: no reply is committed, the group bucket holds only the user message,
and in particular no message from the succeeding agent A. -/
theorem failed_agent_aborts_round_counterexample :
    (handleSendGroup callBFails clockW [agA, agB] uW
        ConversationStateManager.init).committed = []
    ∧ (handleSendGroup callBFails clockW [agA, agB] uW
        ConversationStateManager.init).store.getMessages "group" = [uW]
    ∧ ∀ m ∈ (handleSendGroup callBFails clockW [agA, agB] uW
        ConversationStateManager.init).store.getMessages "group",
        m.sender ≠ "a1" := by
  decide

/-- C2 amended: in a manual group round, if any configured agent's invocation
fails, the whole commit phase is skipped: no agent reply (not even a
successful one) is committed, and the store is exactly the store after the
user message was appended. -/
theorem failed_agent_aborts_round
    (call : AgentConfig → List Message → Except String String)
    (clock : Nat → Nat) (agents : List AgentConfig) (userMsg : Message)
    (s : ConversationStateManager) (a : AgentConfig) (e : String)
    (ha : a ∈ agents)
    (hFail : getAgentResponse call (s.addMessage userMsg) a = Except.error e) :
    (handleSendGroup call clock agents userMsg s).committed = []
    ∧ (handleSendGroup call clock agents userMsg s).store = s.addMessage userMsg := by
  have hnone : allOk (agents.map
      (fun x => (x, getAgentResponse call (s.addMessage userMsg) x))) = none :=
    allOk_eq_none _ a e (List.mem_map.mpr ⟨a, ha, by rw [hFail]⟩)
  simp only [handleSendGroup]
  rw [hnone]
  exact ⟨rfl, rfl⟩

/-- Witness for the amended C2 at concrete inputs. -/
theorem failed_agent_aborts_round_witness :
    agB ∈ [agA, agB]
    ∧ (handleSendGroup callBFails clockW [agA, agB] uW
        ConversationStateManager.init).store
        = ConversationStateManager.init.addMessage uW :=
  ⟨by decide,
   (failed_agent_aborts_round callBFails clockW [agA, agB] uW
     ConversationStateManager.init agB "boom" (by decide) rfl).2⟩

/- Claim C3: snapshot isolation of a manual group round. -/

/-- C3: in a manual group-addressed send, every configured agent's generation
input is exactly the getMessagesForAgent snapshot of the store taken after
the user message was appended and before any reply of the round was
committed; consequently, whenever the commit clock has advanced past every
timestamp already stored (as it has after awaiting the network), no committed
reply of the round occurs in any agent's input - in particular agent A's
input never contains agent B's reply to the same prompt. -/
theorem group_round_snapshot_isolation
    (call : AgentConfig → List Message → Except String String)
    (clock : Nat → Nat) (agents : List AgentConfig) (userMsg : Message)
    (s : ConversationStateManager)
    (hMono : ∀ i j : Nat, i ≤ j → clock i ≤ clock j)
    (hFresh : ∀ m ∈ (s.addMessage userMsg).storeMessages, m.timestamp < clock 0) :
    (handleSendGroup call clock agents userMsg s).inputs
      = agents.map (fun a => (a.id, (s.addMessage userMsg).getMessagesForAgent a.id))
    ∧ ∀ r ∈ (handleSendGroup call clock agents userMsg s).committed,
        ∀ p ∈ (handleSendGroup call clock agents userMsg s).inputs, r ∉ p.2 := by
  constructor
  · simp only [handleSendGroup]
    cases allOk (agents.map
        (fun a => (a, getAgentResponse call (s.addMessage userMsg) a))) with
    | none => rfl
    | some pairs => rfl
  · intro r hr p hp hrp
    have hinputs : (handleSendGroup call clock agents userMsg s).inputs
        = agents.map (fun a => (a.id, (s.addMessage userMsg).getMessagesForAgent a.id)) := by
      simp only [handleSendGroup]
      cases allOk (agents.map
          (fun a => (a, getAgentResponse call (s.addMessage userMsg) a))) with
      | none => rfl
      | some pairs => rfl
    rw [hinputs] at hp
    rcases List.mem_map.mp hp with ⟨a, _, hpa⟩
    have hrmem : r ∈ (s.addMessage userMsg).getMessagesForAgent a.id := by
      rw [← hpa] at hrp; exact hrp
    have hrstore : r ∈ (s.addMessage userMsg).storeMessages :=
      mem_storeMessages_of_mem_getMessagesForAgent _ _ _ hrmem
    have hlt : r.timestamp < clock 0 := hFresh r hrstore
    have hge : ∃ j, 0 ≤ j ∧ r.timestamp = clock j + j := by
      revert hr
      simp only [handleSendGroup]
      cases h : allOk (agents.map
          (fun a => (a, getAgentResponse call (s.addMessage userMsg) a))) with
      | none => intro hr; simp at hr
      | some pairs =>
        intro hr
        exact commitReplies_timestamp s.currentMode clock pairs 0 _ r hr
    rcases hge with ⟨j, _, hts⟩
    have : clock 0 ≤ clock j := hMono 0 j (Nat.zero_le j)
    omega

/-- Witness for C3 at concrete inputs: the first agent's committed reply does
not occur in the second agent's generation input. -/
theorem group_round_snapshot_isolation_witness :
    mkReply (clockW 0) 0 "a1" "reply-a1" ∉
      ((ConversationStateManager.init.addMessage uW).getMessagesForAgent "a2") := by
  have h := group_round_snapshot_isolation (okCall genW) clockW [agA, agB] uW
      ConversationStateManager.init
      (fun i j hij => Nat.add_le_add_left hij 10) (by decide)
  refine h.2 (mkReply (clockW 0) 0 "a1" "reply-a1") (by decide)
    ("a2", (ConversationStateManager.init.addMessage uW).getMessagesForAgent "a2") ?_
  rw [h.1]
  exact List.mem_map.mpr ⟨agB, by decide, rfl⟩

/- Claim C4: commit order and strictly increasing timestamps in a manual
group round. -/

/-- C4: in a manual group round in which every invocation succeeds, replies
are committed in agent configuration order and appended in that order to the
bucket captured at send time; and when the clock is monotone and has advanced
past the user message's timestamp, each reply's timestamp is strictly greater
than the user message's timestamp and than every earlier reply's timestamp in
the same round. -/
theorem group_round_commit_order (gen : AgentConfig → List Message → String)
    (clock : Nat → Nat) (agents : List AgentConfig) (userMsg : Message)
    (s : ConversationStateManager)
    (hMono : ∀ i j : Nat, i ≤ j → clock i ≤ clock j)
    (hUser : userMsg.timestamp < clock 0) :
    (handleSendGroup (okCall gen) clock agents userMsg s).committed.map Message.sender
      = agents.map AgentConfig.id
    ∧ (handleSendGroup (okCall gen) clock agents userMsg s).store.getMessages
        s.currentMode
      = (s.addMessage userMsg).getMessages s.currentMode
        ++ (handleSendGroup (okCall gen) clock agents userMsg s).committed
    ∧ (∀ m ∈ (handleSendGroup (okCall gen) clock agents userMsg s).committed,
        userMsg.timestamp < m.timestamp)
    ∧ (handleSendGroup (okCall gen) clock agents userMsg s).committed.Pairwise
        (fun m1 m2 => m1.timestamp < m2.timestamp) := by
  have hsome : allOk (agents.map
      (fun a => (a, getAgentResponse (okCall gen) (s.addMessage userMsg) a)))
      = some (agents.map
        (fun a => (a, gen a ((s.addMessage userMsg).getMessagesForAgent a.id)))) :=
    allOk_map_ok agents _
  have hred : handleSendGroup (okCall gen) clock agents userMsg s
      = ⟨(commitReplies s.currentMode clock 0 (agents.map
            (fun a => (a, gen a ((s.addMessage userMsg).getMessagesForAgent a.id))))
            (s.addMessage userMsg)).1,
         agents.map (fun a => (a.id, (s.addMessage userMsg).getMessagesForAgent a.id)),
         (commitReplies s.currentMode clock 0 (agents.map
            (fun a => (a, gen a ((s.addMessage userMsg).getMessagesForAgent a.id))))
            (s.addMessage userMsg)).2⟩ := by
    simp only [handleSendGroup]
    rw [hsome]
  refine ⟨?_, ?_, ?_, ?_⟩
  · rw [hred]
    simp only
    rw [commitReplies_senders]
    simp
  · rw [hred]
    simp only
    exact commitReplies_bucket s.currentMode clock _ 0 _
  · intro m hm
    rw [hred] at hm
    simp only at hm
    rcases commitReplies_timestamp s.currentMode clock _ 0 _ m hm with ⟨j, _, hts⟩
    have : clock 0 ≤ clock j := hMono 0 j (Nat.zero_le j)
    omega
  · rw [hred]
    simp only
    exact commitReplies_pairwise s.currentMode clock hMono _ 0 _

/-- Witness for C4 at concrete inputs: two successful agents commit in
configuration order. -/
theorem group_round_commit_order_witness :
    (handleSendGroup (okCall genW) clockW [agA, agB] uW
        ConversationStateManager.init).committed.map Message.sender
      = List.map AgentConfig.id [agA, agB] :=
  (group_round_commit_order genW clockW [agA, agB] uW ConversationStateManager.init
    (fun i j h => Nat.add_le_add_left h 10) (by decide)).1

/- The per-agent loop of executeAutoTurn (auto-chat). -/

/-- The observable outcome of one auto-chat round: final store, the
cancellation flag as left by the round, whether an invocation failure aborted
the loop, the per-agent inputs actually passed to the invocations that were
issued, and the committed replies in commit order. -/
structure TurnResult where
  store : ConversationStateManager
  active : Bool
  aborted : Bool
  inputs : List (String × List Message)
  committed : List Message
deriving Repr

/-- The per-agent loop of executeAutoTurn: check the cooperative cancellation
flag at the top of each iteration, then read the agent's live
getMessagesForAgent view, await the invocation, and on success commit the
reply to the group bucket immediately, before the next agent's call is
issued. cancelDuring i records whether stopAutoConversation ran while the
i-th call (or the following inter-agent delay) was in flight; the in-flight
call always finishes and its result is committed unconditionally. An
invocation failure throws out of the loop (aborted = true), keeping the
commits already made. -/
def autoTurnGo (call : AgentConfig → List Message → Except String String)
    (cancelDuring : Nat → Bool) (clock : Nat → Nat) :
    List AgentConfig → Nat → Bool → ConversationStateManager → TurnResult
  | [], _, active, s => ⟨s, active, false, [], []⟩
  | a :: rest, i, active, s =>
    if active = false then ⟨s, active, false, [], []⟩
    else
      let input := s.getMessagesForAgent a.id
      let activeAfter := active && !cancelDuring i
      match call a input with
      | Except.error _ => ⟨s, activeAfter, true, [(a.id, input)], []⟩
      | Except.ok resp =>
        let msg := mkReply (clock i) i a.id resp
        let r := autoTurnGo call cancelDuring clock rest (i + 1) activeAfter
          (s.addMessageToMode "group" msg)
        ⟨r.store, r.active, r.aborted, (a.id, input) :: r.inputs, msg :: r.committed⟩

theorem autoTurnGo_inactive
    (call : AgentConfig → List Message → Except String String)
    (cancelDuring : Nat → Bool) (clock : Nat → Nat)
    (agents : List AgentConfig) (i : Nat) (s : ConversationStateManager) :
    autoTurnGo call cancelDuring clock agents i false s
      = ⟨s, false, false, [], []⟩ := by
  cases agents <;> simp [autoTurnGo]

/-- One unfolding step of the loop when the agent call succeeds. -/
theorem autoTurnGo_cons_ok
    (call : AgentConfig → List Message → Except String String)
    (cancelDuring : Nat → Bool) (clock : Nat → Nat)
    (a : AgentConfig) (rest : List AgentConfig) (i : Nat)
    (s : ConversationStateManager) (resp : String)
    (hcall : call a (s.getMessagesForAgent a.id) = Except.ok resp) :
    autoTurnGo call cancelDuring clock (a :: rest) i true s
      = ⟨(autoTurnGo call cancelDuring clock rest (i + 1) (!cancelDuring i)
            (s.addMessageToMode "group" (mkReply (clock i) i a.id resp))).store,
         (autoTurnGo call cancelDuring clock rest (i + 1) (!cancelDuring i)
            (s.addMessageToMode "group" (mkReply (clock i) i a.id resp))).active,
         (autoTurnGo call cancelDuring clock rest (i + 1) (!cancelDuring i)
            (s.addMessageToMode "group" (mkReply (clock i) i a.id resp))).aborted,
         (a.id, s.getMessagesForAgent a.id) ::
           (autoTurnGo call cancelDuring clock rest (i + 1) (!cancelDuring i)
             (s.addMessageToMode "group" (mkReply (clock i) i a.id resp))).inputs,
         mkReply (clock i) i a.id resp ::
           (autoTurnGo call cancelDuring clock rest (i + 1) (!cancelDuring i)
             (s.addMessageToMode "group" (mkReply (clock i) i a.id resp))).committed⟩ := by
  simp [autoTurnGo, hcall]

/-- One unfolding step of the loop when the agent call fails. -/
theorem autoTurnGo_cons_error
    (call : AgentConfig → List Message → Except String String)
    (cancelDuring : Nat → Bool) (clock : Nat → Nat)
    (a : AgentConfig) (rest : List AgentConfig) (i : Nat)
    (s : ConversationStateManager) (e : String)
    (hcall : call a (s.getMessagesForAgent a.id) = Except.error e) :
    autoTurnGo call cancelDuring clock (a :: rest) i true s
      = ⟨s, !cancelDuring i, true, [(a.id, s.getMessagesForAgent a.id)], []⟩ := by
  simp [autoTurnGo, hcall]

/-- Once a message is in the group bucket, it is in every input that the rest
of the round's loop hands to an invocation. -/
theorem autoTurnGo_inputs_contain_group
    (call : AgentConfig → List Message → Except String String)
    (cancelDuring : Nat → Bool) (clock : Nat → Nat) :
    ∀ (agents : List AgentConfig) (i : Nat) (active : Bool)
      (s : ConversationStateManager) (m : Message),
      m ∈ s.getMessages "group" →
      ∀ p ∈ (autoTurnGo call cancelDuring clock agents i active s).inputs,
        m ∈ p.2 := by
  intro agents
  induction agents with
  | nil => intro i active s m _ p hp; simp [autoTurnGo] at hp
  | cons a rest ih =>
    intro i active s m hm p hp
    cases active with
    | false => rw [autoTurnGo_inactive] at hp; simp at hp
    | true =>
      cases hcall : call a (s.getMessagesForAgent a.id) with
      | error e =>
        rw [autoTurnGo_cons_error call cancelDuring clock a rest i s e hcall] at hp
        simp at hp
        subst hp
        exact (mem_getMessagesForAgent s a.id m).mpr (List.mem_append_right _ hm)
      | ok resp =>
        rw [autoTurnGo_cons_ok call cancelDuring clock a rest i s resp hcall] at hp
        simp only [List.mem_cons] at hp
        rcases hp with hp | hp
        · subst hp
          exact (mem_getMessagesForAgent s a.id m).mpr (List.mem_append_right _ hm)
        · refine ih (i + 1) _ _ m ?_ p hp
          rw [getMessages_addMessageToMode]
          exact List.mem_append_left _ hm

/-- With an always-successful boundary and no cancellation, the loop issues
one invocation per agent and commits one reply per agent. -/
theorem autoTurnGo_lengths (gen : AgentConfig → List Message → String)
    (clock : Nat → Nat) :
    ∀ (agents : List AgentConfig) (i : Nat) (s : ConversationStateManager),
      (autoTurnGo (okCall gen) (fun _ => false) clock agents i true s).inputs.length
        = agents.length
      ∧ (autoTurnGo (okCall gen) (fun _ => false) clock agents i true s).committed.length
        = agents.length := by
  intro agents
  induction agents with
  | nil => intro i s; exact ⟨rfl, rfl⟩
  | cons a rest ih =>
    intro i s
    rw [autoTurnGo_cons_ok (okCall gen) (fun _ => false) clock a rest i s
      (gen a (s.getMessagesForAgent a.id)) rfl]
    simp only [List.length_cons, Bool.not_false]
    exact ⟨by rw [(ih (i + 1) _).1], by rw [(ih (i + 1) _).2]⟩

/- Claim C5: visibility within one auto-chat round. -/

/-- C5 counterexample: in a concrete auto-chat round with two agents, the
first agent's reply is committed before the second agent's call is issued,
and that reply occurs in the second agent's generation input - executeAutoTurn
reads a live view, not a snapshot taken before the round's commits. -/
theorem auto_round_not_snapshot_counterexample :
    mkReply 10 0 "a1" "reply-a1"
      ∈ (autoTurnGo (okCall genW) (fun _ => false) (fun _ => 10) [agA, agB] 0 true
          ConversationStateManager.init).committed
    ∧ mkReply 10 0 "a1" "reply-a1"
      ∈ (List.getD (autoTurnGo (okCall genW) (fun _ => false) (fun _ => 10) [agA, agB]
          0 true ConversationStateManager.init).inputs 1 ("", [])).2 := by
  constructor
  · decide
  · have h1 : (autoTurnGo (okCall genW) (fun _ => false) (fun _ => 10) [agA, agB] 0 true
        ConversationStateManager.init).inputs
        = [("a1", ConversationStateManager.init.getMessagesForAgent "a1"),
           ("a2", (ConversationStateManager.init.addMessageToMode "group"
              (mkReply 10 0 "a1" "reply-a1")).getMessagesForAgent "a2")] := rfl
    rw [h1]
    simp only [List.getD_cons_succ, List.getD_cons_zero]
    rw [mem_getMessagesForAgent]
    decide

/-- C5 amended: within an auto-chat round in which every invocation succeeds
and no cancellation happens, agents are invoked sequentially against the live
store, so the k-th agent's generation input contains the reply committed by
every earlier agent j < k of the same round (the converse of the manual
round's snapshot isolation). -/
theorem auto_round_live_view (gen : AgentConfig → List Message → String)
    (clock : Nat → Nat) :
    ∀ (agents : List AgentConfig) (i : Nat) (s : ConversationStateManager)
      (j k : Nat), j < k → k < agents.length →
      ∀ (dm : Message) (dp : String × List Message),
      List.getD (autoTurnGo (okCall gen) (fun _ => false) clock agents i true s).committed
          j dm
        ∈ (List.getD (autoTurnGo (okCall gen) (fun _ => false) clock agents i true s).inputs
            k dp).2 := by
  intro agents
  induction agents with
  | nil =>
    intro i s j k _ hk dm dp
    exact absurd hk (by simp)
  | cons a rest ih =>
    intro i s j k hjk hk dm dp
    rw [autoTurnGo_cons_ok (okCall gen) (fun _ => false) clock a rest i s
      (gen a (s.getMessagesForAgent a.id)) rfl]
    simp only [Bool.not_false]
    obtain ⟨k', rfl⟩ : ∃ k', k = k' + 1 := ⟨k - 1, by omega⟩
    rw [List.getD_cons_succ]
    cases j with
    | zero =>
      rw [List.getD_cons_zero]
      have hlen : k' < (autoTurnGo (okCall gen) (fun _ => false) clock rest (i + 1) true
          (s.addMessageToMode "group"
            (mkReply (clock i) i a.id (gen a (s.getMessagesForAgent a.id))))).inputs.length := by
        rw [(autoTurnGo_lengths gen clock rest (i + 1) _).1]
        simpa using Nat.lt_of_succ_lt_succ hk
      rw [List.getD_eq_getElem _ _ hlen]
      refine autoTurnGo_inputs_contain_group (okCall gen) (fun _ => false) clock rest
        (i + 1) true _ _ ?_ _ (List.getElem_mem hlen)
      rw [getMessages_addMessageToMode]
      exact List.mem_append_right _ (List.mem_singleton_self _)
    | succ j' =>
      rw [List.getD_cons_succ]
      exact ih (i + 1) _ j' k' (Nat.lt_of_succ_lt_succ hjk)
        (by simpa using Nat.lt_of_succ_lt_succ hk) dm dp

/-- Witness for the amended C5 at concrete inputs: in a two-agent round the
first committed reply is in the second agent's input. -/
theorem auto_round_live_view_witness :
    List.getD (autoTurnGo (okCall genW) (fun _ => false) clockW [agA, agB] 0 true
        ConversationStateManager.init).committed 0 uW
      ∈ (List.getD (autoTurnGo (okCall genW) (fun _ => false) clockW [agA, agB] 0 true
          ConversationStateManager.init).inputs 1 ("", [])).2 :=
  auto_round_live_view genW clockW [agA, agB] 0 ConversationStateManager.init 0 1
    (by decide) (by decide) uW ("", [])

/- Claim C8: cancellation while a call is in flight. -/

/-- C8 counterexample: cancellation occurring while the first agent's call is
in flight does not discard that call's result - the finished call's reply is
committed to the group bucket - although no further per-agent calls are
issued in the round. -/
theorem cancelled_call_discarded_counterexample :
    (autoTurnGo (okCall genW) (fun i => i == 0) clockW [agA, agB] 0 true
        ConversationStateManager.init).committed = [mkReply (clockW 0) 0 "a1" "reply-a1"]
    ∧ mkReply (clockW 0) 0 "a1" "reply-a1"
        ∈ (autoTurnGo (okCall genW) (fun i => i == 0) clockW [agA, agB] 0 true
            ConversationStateManager.init).store.getMessages "group"
    ∧ (autoTurnGo (okCall genW) (fun i => i == 0) clockW [agA, agB] 0 true
        ConversationStateManager.init).inputs.length = 1 := by
  refine ⟨rfl, ?_, rfl⟩
  decide

/-- C8 amended: if auto-chat cancellation happens while an agent's call is in
flight, the call is allowed to finish and its result is still committed to
the group bucket (there is no post-await cancellation check before the
commit); no further per-agent calls are issued in that round. -/
theorem cancelled_call_still_commits
    (call : AgentConfig → List Message → Except String String)
    (cancelDuring : Nat → Bool) (clock : Nat → Nat)
    (a : AgentConfig) (rest : List AgentConfig) (i : Nat)
    (s : ConversationStateManager) (resp : String)
    (hCall : call a (s.getMessagesForAgent a.id) = Except.ok resp)
    (hCancel : cancelDuring i = true) :
    autoTurnGo call cancelDuring clock (a :: rest) i true s
      = ⟨s.addMessageToMode "group" (mkReply (clock i) i a.id resp), false, false,
         [(a.id, s.getMessagesForAgent a.id)], [mkReply (clock i) i a.id resp]⟩
    ∧ mkReply (clock i) i a.id resp
        ∈ (autoTurnGo call cancelDuring clock (a :: rest) i true s).store.getMessages
            "group" := by
  have hstep := autoTurnGo_cons_ok call cancelDuring clock a rest i s resp hCall
  rw [hCancel] at hstep
  simp only [Bool.not_true] at hstep
  rw [autoTurnGo_inactive] at hstep
  refine ⟨hstep, ?_⟩
  rw [hstep]
  simp only [getMessages_addMessageToMode]
  exact List.mem_append_right _ (List.mem_singleton_self _)

/-- Witness for the amended C8 at concrete inputs. -/
theorem cancelled_call_still_commits_witness :
    mkReply (clockW 0) 0 "a1" "reply-a1"
      ∈ (autoTurnGo (okCall genW) (fun i => i == 0) clockW [agA, agB] 0 true
          ConversationStateManager.init).store.getMessages "group" :=
  (cancelled_call_still_commits (okCall genW) (fun i => i == 0) clockW
    agA [agB] 0 ConversationStateManager.init "reply-a1" rfl rfl).2

/- The auto-chat controller: startAutoConversation, executeAutoTurn ticks,
and the recursive setTimeout chain. -/

theorem mapGet_mapSet_ne (m : List (String × Bucket)) (k k' : String) (v : Bucket)
    (h : k ≠ k') : mapGet (mapSet m k v) k' = mapGet m k' := by
  induction m with
  | nil =>
    have hb : (k == k') = false := beq_eq_false_iff_ne.mpr h
    simp [mapSet, mapGet, List.find?, hb]
  | cons p rest ih =>
    obtain ⟨k₀, v₀⟩ := p
    by_cases h₀ : k₀ = k
    · subst h₀
      have hb : (k₀ == k') = false := beq_eq_false_iff_ne.mpr h
      simp [mapSet, mapGet, List.find?, hb]
    · have hb : (k₀ == k) = false := beq_eq_false_iff_ne.mpr h₀
      by_cases h₁ : k₀ = k'
      · subst h₁
        simp [mapSet, mapGet, List.find?, hb]
      · have hb' : (k₀ == k') = false := beq_eq_false_iff_ne.mpr h₁
        simp only [mapSet, hb, Bool.false_eq_true, if_false]
        simp only [mapGet, List.find?, hb'] at ih ⊢
        exact ih

theorem mapGet_eq_none_of_has_false (m : List (String × Bucket)) (k : String)
    (h : mapHas m k = false) : mapGet m k = none := by
  unfold mapGet
  rw [List.find?_eq_none.mpr]
  · rfl
  · intro p hp
    simp only [mapHas, List.any_eq_false] at h
    exact fun hbeq => h p hp hbeq

/-- switchMode never changes the content of any bucket read through
getMessages: it only materializes an empty bucket for the new mode. -/
theorem getMessages_switchMode (s : ConversationStateManager) (mode k : String) :
    (s.switchMode mode).getMessages k = s.getMessages k := by
  unfold ConversationStateManager.switchMode ConversationStateManager.getMessages
  by_cases hhas : mapHas s.conversationStates mode
  · simp [hhas]
  · simp only [hhas, Bool.false_eq_true, if_false]
    by_cases hk : mode = k
    · subst hk
      rw [mapGet_mapSet_self, mapGet_eq_none_of_has_false _ _ (by simpa using hhas)]
      rfl
    · rw [mapGet_mapSet_ne _ _ _ _ hk]

/-- With an always-successful boundary and no cancellation, the loop neither
clears the active flag nor aborts. -/
theorem autoTurnGo_ok_flags (gen : AgentConfig → List Message → String)
    (clock : Nat → Nat) :
    ∀ (agents : List AgentConfig) (i : Nat) (s : ConversationStateManager),
      (autoTurnGo (okCall gen) (fun _ => false) clock agents i true s).active = true
      ∧ (autoTurnGo (okCall gen) (fun _ => false) clock agents i true s).aborted = false := by
  intro agents
  induction agents with
  | nil => intro i s; exact ⟨rfl, rfl⟩
  | cons a rest ih =>
    intro i s
    rw [autoTurnGo_cons_ok (okCall gen) (fun _ => false) clock a rest i s
      (gen a (s.getMessagesForAgent a.id)) rfl]
    simp only [Bool.not_false]
    exact ⟨(ih (i + 1) _).1, (ih (i + 1) _).2⟩

/-- With an always-successful boundary and no cancellation, the round appends
exactly its committed replies to the group bucket. -/
theorem autoTurnGo_ok_group_bucket (gen : AgentConfig → List Message → String)
    (clock : Nat → Nat) :
    ∀ (agents : List AgentConfig) (i : Nat) (s : ConversationStateManager),
      (autoTurnGo (okCall gen) (fun _ => false) clock agents i true s).store.getMessages
          "group"
        = s.getMessages "group"
          ++ (autoTurnGo (okCall gen) (fun _ => false) clock agents i true s).committed := by
  intro agents
  induction agents with
  | nil => intro i s; simp [autoTurnGo]
  | cons a rest ih =>
    intro i s
    rw [autoTurnGo_cons_ok (okCall gen) (fun _ => false) clock a rest i s
      (gen a (s.getMessagesForAgent a.id)) rfl]
    simp only [Bool.not_false]
    rw [ih (i + 1), getMessages_addMessageToMode]
    simp

/-- The auto-chat controller state: the store plus the mutable refs
autoConversationActiveRef, autoRoundCountRef and autoRoundLimitRef, and
whether the completion toast notifyAutoConversationCompleted has been shown. -/
structure AutoChatState where
  manager : ConversationStateManager
  active : Bool
  roundCount : Nat
  roundLimit : Option Nat
  notified : Bool
deriving Repr, DecidableEq

/-- startAutoConversation with an optional round limit: set the active flag,
reset the round counter, and force the conversation into group mode. -/
def startAutoConversation (limit : Option Nat) (m : ConversationStateManager) :
    AutoChatState :=
  let m1 := if m.currentMode != "group" then m.switchMode "group" else m
  ⟨m1, true, 0, limit, false⟩

/-- The round-limit test of executeAutoTurn: limit is not null and the round
counter has reached it. -/
def limitReached : Option Nat → Nat → Bool
  | none, _ => false
  | some limit, c => limit ≤ c

/-- One executeAutoTurn tick: return immediately if cancelled; stop if no
agents are configured; otherwise force group mode, run the per-agent loop,
and - unless an invocation failure aborted the loop - count the round if it
committed anything and stop with the completion toast when the round limit is
reached. (The reentrancy guards autoTurnInProgressRef and isLoadingRef are
identically false here because ticks are modelled as running to completion
one at a time, which is how the single-threaded event loop runs them.) -/
def executeAutoTurnStep (call : AgentConfig → List Message → Except String String)
    (cancelDuring : Nat → Bool) (clock : Nat → Nat)
    (agents : List AgentConfig) (st : AutoChatState) : AutoChatState :=
  if st.active = false then st
  else if agents.isEmpty then ⟨st.manager, false, st.roundCount, st.roundLimit, st.notified⟩
  else
    let m1 := if st.manager.currentMode != "group" then st.manager.switchMode "group"
      else st.manager
    let r := autoTurnGo call cancelDuring clock agents 0 st.active m1
    if r.aborted then ⟨r.store, r.active, st.roundCount, st.roundLimit, st.notified⟩
    else if r.committed.isEmpty then
      ⟨r.store, r.active, st.roundCount, st.roundLimit, st.notified⟩
    else if limitReached st.roundLimit (st.roundCount + 1) then
      ⟨r.store, false, st.roundCount + 1, st.roundLimit, st.notified || r.active⟩
    else ⟨r.store, r.active, st.roundCount + 1, st.roundLimit, st.notified⟩

/-- The recursive setTimeout chain of scheduleAutoTurn: while the active flag
is set, run another tick. The fuel bounds how many ticks are considered; the
theorems hold for any sufficient fuel. The cancellation schedule and the
clock may differ per round. -/
def autoChatRun (call : AgentConfig → List Message → Except String String)
    (cancelSchedule : Nat → Nat → Bool) (clocks : Nat → Nat → Nat)
    (agents : List AgentConfig) : Nat → AutoChatState → AutoChatState
  | 0, st => st
  | fuel + 1, st =>
    if st.active then
      autoChatRun call cancelSchedule clocks agents fuel
        (executeAutoTurnStep call (cancelSchedule st.roundCount) (clocks st.roundCount)
          agents st)
    else st

theorem autoChatRun_inactive (call : AgentConfig → List Message → Except String String)
    (cancelSchedule : Nat → Nat → Bool) (clocks : Nat → Nat → Nat)
    (agents : List AgentConfig) (fuel : Nat) (st : AutoChatState)
    (h : st.active = false) :
    autoChatRun call cancelSchedule clocks agents fuel st = st := by
  cases fuel with
  | zero => rfl
  | succ n => simp [autoChatRun, h]

theorem executeAutoTurnStep_inactive
    (call : AgentConfig → List Message → Except String String)
    (cancelDuring : Nat → Bool) (clock : Nat → Nat)
    (agents : List AgentConfig) (st : AutoChatState) (h : st.active = false) :
    executeAutoTurnStep call cancelDuring clock agents st = st := by
  unfold executeAutoTurnStep
  rw [h]
  simp

/-- Characterization of one successful, uncancelled tick while active: the
round commits, the counter advances, and the tick stops-and-notifies exactly
when the new counter reaches the limit. -/
theorem executeAutoTurnStep_ok (gen : AgentConfig → List Message → String)
    (clock : Nat → Nat) (agents : List AgentConfig) (hA : agents ≠ [])
    (st : AutoChatState) (hact : st.active = true) :
    executeAutoTurnStep (okCall gen) (fun _ => false) clock agents st
      = (if limitReached st.roundLimit (st.roundCount + 1) then
          ⟨(autoTurnGo (okCall gen) (fun _ => false) clock agents 0 true
              (if st.manager.currentMode != "group" then st.manager.switchMode "group"
                else st.manager)).store,
            false, st.roundCount + 1, st.roundLimit, true⟩
         else
          ⟨(autoTurnGo (okCall gen) (fun _ => false) clock agents 0 true
              (if st.manager.currentMode != "group" then st.manager.switchMode "group"
                else st.manager)).store,
            true, st.roundCount + 1, st.roundLimit, st.notified⟩) := by
  have hA' : agents.isEmpty = false := by
    cases agents with
    | nil => exact absurd rfl hA
    | cons a l => rfl
  have hflags := autoTurnGo_ok_flags gen clock agents 0
    (if st.manager.currentMode != "group" then st.manager.switchMode "group"
      else st.manager)
  have hlens := autoTurnGo_lengths gen clock agents 0
    (if st.manager.currentMode != "group" then st.manager.switchMode "group"
      else st.manager)
  have hcommitted : (autoTurnGo (okCall gen) (fun _ => false) clock agents 0 true
      (if st.manager.currentMode != "group" then st.manager.switchMode "group"
        else st.manager)).committed.isEmpty = false := by
    cases hc : (autoTurnGo (okCall gen) (fun _ => false) clock agents 0 true
        (if st.manager.currentMode != "group" then st.manager.switchMode "group"
          else st.manager)).committed with
    | nil =>
      rw [hc] at hlens
      cases agents with
      | nil => exact absurd rfl hA
      | cons a l => simp at hlens
    | cons x xs => rfl
  unfold executeAutoTurnStep
  rw [hact]
  simp only [Bool.true_eq_false, if_false, hA', hflags.1, hflags.2, hcommitted,
    Bool.false_eq_true, Bool.or_true]

/-- While active under round limit N with the counter strictly below N, a run
with enough fuel ends at exactly N rounds, inactive and notified, having
appended one reply per agent per remaining round to the group bucket. -/
theorem autoChatRun_ok (gen : AgentConfig → List Message → String)
    (clocks : Nat → Nat → Nat) (agents : List AgentConfig) (hA : agents ≠ [])
    (N : Nat) :
    ∀ (fuel : Nat) (st : AutoChatState), st.active = true →
      st.roundLimit = some N → st.roundCount < N → st.notified = false →
      N - st.roundCount ≤ fuel →
      (autoChatRun (okCall gen) (fun _ _ => false) clocks agents fuel st).roundCount = N
      ∧ (autoChatRun (okCall gen) (fun _ _ => false) clocks agents fuel st).active = false
      ∧ (autoChatRun (okCall gen) (fun _ _ => false) clocks agents fuel st).notified = true
      ∧ ((autoChatRun (okCall gen) (fun _ _ => false) clocks agents fuel
            st).manager.getMessages "group").length
        = ((st.manager.getMessages "group").length
            + (N - st.roundCount) * agents.length) := by
  intro fuel
  induction fuel with
  | zero =>
    intro st _ _ hcN _ hfuel
    omega
  | succ n ih =>
    intro st hact hlim hcN hnot hfuel
    have hm1 : ((if st.manager.currentMode != "group" then st.manager.switchMode "group"
        else st.manager).getMessages "group") = st.manager.getMessages "group" := by
      split
      · exact getMessages_switchMode _ _ _
      · rfl
    have hstep := executeAutoTurnStep_ok gen (clocks st.roundCount) agents hA st hact
    have hbucket := autoTurnGo_ok_group_bucket gen (clocks st.roundCount) agents 0
      (if st.manager.currentMode != "group" then st.manager.switchMode "group"
        else st.manager)
    have hlens := autoTurnGo_lengths gen (clocks st.roundCount) agents 0
      (if st.manager.currentMode != "group" then st.manager.switchMode "group"
        else st.manager)
    have hstorelen : ((autoTurnGo (okCall gen) (fun _ => false) (clocks st.roundCount)
        agents 0 true
        (if st.manager.currentMode != "group" then st.manager.switchMode "group"
          else st.manager)).store.getMessages "group").length
        = (st.manager.getMessages "group").length + agents.length := by
      rw [hbucket, List.length_append, hm1, hlens.2]
    simp only [autoChatRun, hact, if_true]
    by_cases hNc : N ≤ st.roundCount + 1
    · have hN1 : N = st.roundCount + 1 := by omega
      have hlr : limitReached st.roundLimit (st.roundCount + 1) = true := by
        rw [hlim]
        simp [limitReached, hNc]
      rw [hstep, hlr, if_pos rfl]
      rw [autoChatRun_inactive _ _ _ _ _ _ rfl]
      refine ⟨by simpa using hN1.symm, rfl, rfl, ?_⟩
      simp only
      rw [hstorelen]
      have hsub : N - st.roundCount = 1 := by omega
      rw [hsub, Nat.one_mul]
    · have hlr : limitReached st.roundLimit (st.roundCount + 1) = false := by
        rw [hlim]
        simp [limitReached]
        omega
      rw [hstep, hlr]
      simp only [Bool.false_eq_true, if_false]
      have hres := ih ⟨(autoTurnGo (okCall gen) (fun _ => false) (clocks st.roundCount)
          agents 0 true
          (if st.manager.currentMode != "group" then st.manager.switchMode "group"
            else st.manager)).store,
          true, st.roundCount + 1, st.roundLimit, st.notified⟩
        rfl (by simpa using hlim) (by simpa using Nat.lt_of_le_of_ne (by omega) (by omega))
        (by simpa using hnot) (by simp; omega)
      refine ⟨hres.1, hres.2.1, hres.2.2.1, ?_⟩
      rw [hres.2.2.2]
      simp only
      rw [hstorelen]
      have hsub : N - st.roundCount = (N - (st.roundCount + 1)) + 1 := by omega
      rw [hsub, Nat.succ_mul]
      generalize (N - (st.roundCount + 1)) * agents.length = q
      omega

/- Claim C7: auto-chat with a round limit. -/

/-- C7: starting auto-chat with a round limit N (N at least 1) and a nonempty
agent list, with every invocation succeeding and no cancellation, exactly N
rounds commit replies - the round counter ends at N and the group bucket
gains N * (number of agents) messages - after which the active flag is
cleared, the completion notification is surfaced, and a further tick leaves
the state unchanged (no further round runs). -/
theorem auto_chat_round_limit (gen : AgentConfig → List Message → String)
    (clocks : Nat → Nat → Nat) (agents : List AgentConfig)
    (m : ConversationStateManager) (N fuel : Nat)
    (hA : agents ≠ []) (hN : 1 ≤ N) (hfuel : N ≤ fuel) :
    (autoChatRun (okCall gen) (fun _ _ => false) clocks agents fuel
        (startAutoConversation (some N) m)).roundCount = N
    ∧ (autoChatRun (okCall gen) (fun _ _ => false) clocks agents fuel
        (startAutoConversation (some N) m)).active = false
    ∧ (autoChatRun (okCall gen) (fun _ _ => false) clocks agents fuel
        (startAutoConversation (some N) m)).notified = true
    ∧ ((autoChatRun (okCall gen) (fun _ _ => false) clocks agents fuel
        (startAutoConversation (some N) m)).manager.getMessages "group").length
      = (m.getMessages "group").length + N * agents.length
    ∧ executeAutoTurnStep (okCall gen) (fun _ => false)
        (clocks (autoChatRun (okCall gen) (fun _ _ => false) clocks agents fuel
          (startAutoConversation (some N) m)).roundCount) agents
        (autoChatRun (okCall gen) (fun _ _ => false) clocks agents fuel
          (startAutoConversation (some N) m))
      = autoChatRun (okCall gen) (fun _ _ => false) clocks agents fuel
          (startAutoConversation (some N) m) := by
  have h := autoChatRun_ok gen clocks agents hA N fuel
    (startAutoConversation (some N) m) rfl rfl hN rfl hfuel
  have hsm : (startAutoConversation (some N) m).manager.getMessages "group"
      = m.getMessages "group" := by
    show ((if m.currentMode != "group" then m.switchMode "group"
      else m).getMessages "group") = m.getMessages "group"
    split
    · exact getMessages_switchMode _ _ _
    · rfl
  have h4 := h.2.2.2
  rw [hsm] at h4
  exact ⟨h.1, h.2.1, h.2.2.1, h4,
    executeAutoTurnStep_inactive _ _ _ _ _ h.2.1⟩

/-- Witness for C7 at concrete inputs: one agent, limit one round. -/
theorem auto_chat_round_limit_witness :
    (autoChatRun (okCall genW) (fun _ _ => false) (fun _ _ => 10) [agA] 1
        (startAutoConversation (some 1) ConversationStateManager.init)).roundCount = 1
    ∧ (autoChatRun (okCall genW) (fun _ _ => false) (fun _ _ => 10) [agA] 1
        (startAutoConversation (some 1) ConversationStateManager.init)).active = false
    ∧ (autoChatRun (okCall genW) (fun _ _ => false) (fun _ _ => 10) [agA] 1
        (startAutoConversation (some 1) ConversationStateManager.init)).notified = true := by
  have h := auto_chat_round_limit genW (fun _ _ => 10) [agA]
    ConversationStateManager.init 1 1 (by decide) (by decide) (by decide)
  exact ⟨h.1, h.2.1, h.2.2.1⟩

/- Claim C9: export / import round trip. -/

theorem mapHas_append (l₁ l₂ : List (String × Bucket)) (k : String) :
    mapHas (l₁ ++ l₂) k = (mapHas l₁ k || mapHas l₂ k) := by
  simp [mapHas]

theorem mapSet_eq_append (acc : List (String × Bucket)) (k : String) (v : Bucket)
    (h : mapHas acc k = false) : mapSet acc k v = acc ++ [(k, v)] := by
  induction acc with
  | nil => rfl
  | cons p rest ih =>
    obtain ⟨k₀, v₀⟩ := p
    have h' : ((k₀ == k) || mapHas rest k) = false := h
    rw [Bool.or_eq_false_iff] at h'
    simp only [mapSet, h'.1, Bool.false_eq_true, if_false, List.cons_append]
    rw [ih h'.2]

/-- Re-inserting a key-duplicate-free association list into an empty map, in
order, reproduces the list (importStates rebuilds the Map from the blob). -/
theorem foldl_mapSet_eq_append (blob : List (String × Bucket)) :
    ∀ acc : List (String × Bucket),
      (blob.map Prod.fst).Nodup →
      (∀ k ∈ blob.map Prod.fst, mapHas acc k = false) →
      List.foldl (fun acc p => mapSet acc p.1 p.2) acc blob = acc ++ blob := by
  induction blob with
  | nil => intro acc _ _; simp
  | cons p rest ih =>
    intro acc hnd hdisj
    obtain ⟨k, v⟩ := p
    rw [List.map_cons, List.nodup_cons] at hnd
    have hdisj' : ∀ k' ∈ rest.map Prod.fst, mapHas (acc ++ [(k, v)]) k' = false := by
      intro k' hk'
      have hkk' : (k == k') = false := beq_eq_false_iff_ne.mpr (by
        intro he
        exact hnd.1 (he ▸ hk'))
      have hacc : mapHas acc k' = false := hdisj k' (by simp [hk'])
      rw [mapHas_append, hacc, Bool.false_or]
      simp [mapHas, hkk']
    rw [List.foldl_cons, mapSet_eq_append acc k v (hdisj k (by simp)),
      ih (acc ++ [(k, v)]) hnd.2 hdisj']
    simp

/-- C9 counterexample: for the reachable store whose current mode is the
empty string (created by switchMode of the empty string), the import of its
own export does not restore the mode: the falsiness check in importStates
maps the empty-string mode back to group. -/
theorem roundtrip_empty_mode_counterexample :
    ((ConversationStateManager.init.switchMode "").importStates
        (ConversationStateManager.init.switchMode "").exportStates
        (some (ConversationStateManager.init.switchMode "").currentMode)).currentMode
      ≠ (ConversationStateManager.init.switchMode "").currentMode := by
  decide

/-- C9 amended: importStates of exportStates with the current mode reproduces
the store exactly - same bucket map (names, contents, order) and same current
mode - for every store whose bucket keys are duplicate-free (an invariant of
the JS Map representation) and whose current mode is either the group
sentinel or a non-empty mode possessing a bucket; the one exception, forced
by the counterexample, is the empty-string mode, which import maps back to
group because the empty string is falsy. -/
theorem importStates_exportStates_roundtrip (s : ConversationStateManager)
    (hnd : (s.conversationStates.map Prod.fst).Nodup)
    (hmode : s.currentMode = "group"
      ∨ (s.currentMode ≠ "" ∧ mapHas s.conversationStates s.currentMode = true)) :
    s.importStates s.exportStates (some s.currentMode) = s := by
  have hre : List.foldl (fun acc p => mapSet acc p.1 p.2) [] s.conversationStates
      = s.conversationStates := by
    have h := foldl_mapSet_eq_append s.conversationStates [] hnd (fun k _ => rfl)
    simpa using h
  obtain ⟨states, mode⟩ := s
  simp only [ConversationStateManager.importStates,
    ConversationStateManager.exportStates] at *
  rw [hre]
  rcases hmode with hm | ⟨hne, hhas⟩
  · subst hm
    by_cases hg : mapHas states "group"
    · simp [hg]
    · simp [hg]
  · have hbne : (mode != "") = true := by simpa using hne
    simp [hbne, hhas]

/-- Witness for the amended C9 at a concrete store. -/
theorem importStates_exportStates_roundtrip_witness :
    storeW.importStates storeW.exportStates (some storeW.currentMode) = storeW :=
  importStates_exportStates_roundtrip storeW (by decide) (Or.inl rfl)
